import Mathlib

set_option maxRecDepth 8000
set_option maxHeartbeats 1000000

/-!  Verification development for the private star-registry blockchain whose
source is src/blockchain.js (class Blockchain).  The JavaScript code is shallowly
embedded: the mutable object state becomes an explicit `BlockchainState` that every
operation threads; promises that settle once become explicit result values; the
external cryptographic digest and the external signature-verification primitive
are modelled as explicit functions (the digest as a fixed injective function,
verification as a parameter returning `Except Unit Bool`, where `Except.error`
models a raised exception).

The companion file block.js (the Block entity and codec) is not part of the
sources; the definitions that depend on it are modelled from the spec and marked
as such in their doc comments.

A note on the event-loop semantics that the embedding has to take a position on:
`validateChain` iterates the chain with `Array.prototype.forEach` over an `async`
callback and then resolves its promise with the (still shared) `errorLog` array.
Each callback runs synchronously up to its first `await block.validate()` and is
then resumed as a microtask; the digest-failure pushes happen in that first
resumption, which is queued *before* the continuation of any caller that awaits
the returned promise.  The linkage branch, however, performs a second await
(`await this.getBlockByHeight(block.height - 1).hash` awaits the `undefined`
obtained by reading `.hash` off a pending promise), so its pushes are queued
*after* the awaiting caller's continuation.  Hence the report a caller observes
contains exactly the per-block digest failures; the linkage pushes land only
later, in the already-delivered array.  `validateChainObserved` is the report as
observed by an awaiting caller (this is what `_addBlock` checks), and
`validateChainEventual` is the array's eventual content.
-/

/-- Quote a string as a JSON string literal (the embedded payloads contain no
characters that need escaping, so quoting is plain wrapping). -/
def jsonStr (s : String) : String := "\"" ++ s ++ "\""

/-- Render an Option String the way JSON.stringify renders a possibly-null
string-valued field. -/
def jsonOptStr : Option String → String
  | none => "null"
  | some s => jsonStr s

/-- Modelled from the spec: the cryptographic digest (SHA256 in the source) is an
external opaque service with a deterministic, collision-free contract.  It is
modelled as an explicit injective function on serialized content; every result in
this development depends only on determinism and injectivity of the digest. -/
def digestModel (s : String) : String := "H(" ++ s ++ ")"

/-- Modelled from the spec: the decoded block body.  It is either the fixed
genesis sentinel (an object with a single data field) or a star claim binding a
wallet address, the signed message, the signature and an application-opaque star
payload (modelled as an opaque string). -/
inductive Body
  | data (d : String)
  | starClaim (walletAddress message signature star : String)
  deriving DecidableEq, Inhabited

/-- Modelled from the spec: the Block entity (its source file block.js is not
among the sources).  Fields and their JSON property order follow the block
schema the spec gives in its data-model section: a possibly-null hash, the
height, the encoded body, the append timestamp (a seconds string in the source,
modelled as a Nat and serialized in string position) and a possibly-null
previous-block hash.  The constructor initializes hash and previousBlockHash to
null. -/
structure Block where
  hash : Option String
  height : Int
  body : Body
  time : Nat
  previousBlockHash : Option String
  deriving DecidableEq, Inhabited

/-- Modelled from the spec: the body codec.  The source hex-encodes the JSON of
the payload; the hex layer is a bijective transport, so the model serializes the
decoded body directly to its JSON text. -/
def serializeBody : Body → String
  | Body.data d => "\x7b\"data\":" ++ jsonStr d ++ "\x7d"
  | Body.starClaim w m sg st =>
      "\x7b\"walletAddress\":" ++ jsonStr w ++ ",\"message\":" ++ jsonStr m ++
        ",\"signature\":" ++ jsonStr sg ++ ",\"star\":" ++ jsonStr st ++ "\x7d"

/-- JSON.stringify of a whole block, as used at line 89 of the source
(`SHA256(JSON.stringify(block)).toString()`): every own property is included,
the hash field included (as null when unset). -/
def serializeBlock (b : Block) : String :=
  "\x7b\"hash\":" ++ jsonOptStr b.hash ++
    ",\"height\":" ++ toString b.height ++
    ",\"body\":" ++ serializeBody b.body ++
    ",\"time\":" ++ jsonStr (toString b.time) ++
    ",\"previousBlockHash\":" ++ jsonOptStr b.previousBlockHash ++ "\x7d"

/-- Modelled from the spec (comparison definition for the digest-schema claim):
the canonical serialization that excludes the hash field itself at schema level,
as the spec's data model demands for digest computation. -/
def serializeBlockExcludingHash (b : Block) : String :=
  "\x7b\"height\":" ++ toString b.height ++
    ",\"body\":" ++ serializeBody b.body ++
    ",\"time\":" ++ jsonStr (toString b.time) ++
    ",\"previousBlockHash\":" ++ jsonOptStr b.previousBlockHash ++ "\x7d"

/-- Modelled from the spec: block.validate() (in the missing block.js)
recomputes the block digest with the hash field temporarily set to null — the
spec's design notes record that the source relies on exactly this
assignment-order/null timing — and compares the result with the stored hash. -/
def blockValidate (b : Block) : Bool :=
  decide (b.hash = some (digestModel (serializeBlock { b with hash := none })))

/-- The two error shapes validateChain pushes: Block h is invalid (digest
mismatch) and For Block h, the PreviousBlock hash is invalid (linkage). -/
inductive ChainError
  | invalidBlock (height : Int)
  | invalidPrevHash (height : Int)
  deriving DecidableEq

/-- The validateChain report as observed by a caller that awaits the returned
promise (see the module comment): it contains exactly the digest-failure
entries, in chain order; the linkage pushes are queued after the caller's
continuation and are never in the observed report. -/
def validateChainObserved (chain : List Block) : List ChainError :=
  chain.filterMap fun b =>
    if blockValidate b then none else some (ChainError.invalidBlock b.height)

/-- JavaScript loose inequality against undefined for a possibly-null string:
null != undefined is false, any string != undefined is true. -/
def jsDefined : Option String → Bool
  | none => false
  | some _ => true

/-- The eventual content of the errorLog array once every callback of
validateChain has completed: the observed digest failures followed by the late
linkage pushes.  Because of the precedence slip at line 231 the linkage
comparison is `block.previousBlockHash != undefined` (reading `.hash` off a
promise), so it fires for every digest-valid non-genesis block whose
previousBlockHash is non-null, regardless of actual linkage. -/
def validateChainEventual (chain : List Block) : List ChainError :=
  validateChainObserved chain ++
    chain.filterMap fun b =>
      if blockValidate b && decide (b.height > 0) && jsDefined b.previousBlockHash then
        some (ChainError.invalidPrevHash b.height)
      else none

/-- The mutable state of a Blockchain object: the chain array and the height
field (initialized to -1 by the constructor). -/
structure BlockchainState where
  chain : List Block
  height : Int
  deriving DecidableEq, Inhabited

/-- The state set up by the constructor before initializeChain runs. -/
def emptyState : BlockchainState := { chain := [], height := -1 }

/-- getBlockByHeight: filter the chain by the height field and resolve with the
first match, or null. -/
def getBlockByHeight (st : BlockchainState) (h : Int) : Option Block :=
  (st.chain.filter fun b => decide (b.height = h)).head?

/-- What the promise returned by _addBlock resolves with: the (possibly
rolled-back) block, or the string sentinel Invalid block produced by the catch
handler.  The promise never rejects. -/
inductive AddResult
  | block (b : Block)
  | invalidBlock
  deriving DecidableEq

/-- The block-staging tail of _addBlock: compute the hash over the JSON of the
block (whose hash field is still null at this point), push, run validateChain,
and on a non-empty observed report pop the block and decrement the height —
while still returning the staged block. -/
def stageAndValidate (st : BlockchainState) (newH : Int) (b1 : Block) :
    AddResult × BlockchainState :=
  let b2 : Block := { b1 with hash := some (digestModel (serializeBlock b1)) }
  let staged := st.chain ++ [b2]
  if (validateChainObserved staged).length > 0 then
    (AddResult.block b2, { chain := st.chain, height := newH - 1 })
  else
    (AddResult.block b2, { chain := staged, height := newH })

/-- _addBlock(block): bump the height, stamp height/time on the block, link it
to the previous block (null link for the genesis), hash it, push it, validate
the whole chain and roll the push back if the observed report is non-empty.  If
the previous-block lookup yields null the subsequent property read throws and
the catch handler resolves with the Invalid block sentinel, with the height
already bumped and nothing pushed. -/
def addBlock (st : BlockchainState) (body : Body) (now : Nat) :
    AddResult × BlockchainState :=
  let newH : Int := st.height + 1
  let b0 : Block := { hash := none, height := newH, body := body, time := now,
                      previousBlockHash := none }
  if newH > 0 then
    match getBlockByHeight st st.height with
    | none => (AddResult.invalidBlock, { st with height := newH })
    | some prev => stageAndValidate st newH { b0 with previousBlockHash := prev.hash }
  else
    stageAndValidate st newH b0

/-- The state right after `new Blockchain()` at time t: the constructor runs
initializeChain, which appends the fixed genesis body through _addBlock. -/
def newBlockchain (t : Nat) : BlockchainState :=
  (addBlock emptyState (Body.data ("Genesis Block")) t).2

/-- Accumulate a decimal digit prefix, JavaScript parseInt style. -/
def takeDigitsAux : Nat → List Char → Nat
  | acc, [] => acc
  | acc, c :: rest =>
      if c.isDigit then takeDigitsAux (acc * 10 + (c.toNat - 48)) rest else acc

/-- The leading digit run of a character list, or none when the list does not
start with a digit (parseInt then yields NaN). -/
def takeDigits : List Char → Option Nat
  | [] => none
  | c :: rest =>
      if c.isDigit then some (takeDigitsAux (c.toNat - 48) rest) else none

/-- JavaScript parseInt on a string: an optional sign followed by a digit
prefix; none models NaN. -/
def parseIntJS (s : String) : Option Int :=
  match s.data with
  | '-' :: rest => (takeDigits rest).map fun n => -(n : Int)
  | '+' :: rest => (takeDigits rest).map fun n => (n : Int)
  | l => (takeDigits l).map fun n => (n : Int)

/-- String.prototype.split for a single-character separator. -/
def splitCharAux (sep : Char) : List Char → List Char → List String
  | [], acc => [String.mk acc.reverse]
  | c :: rest, acc =>
      if c = sep then String.mk acc.reverse :: splitCharAux sep rest []
      else splitCharAux sep rest (c :: acc)

/-- message.split(sep) of the source, for a one-character separator. -/
def jsSplit (s : String) (sep : Char) : List String :=
  splitCharAux sep s.data []

/-- parseInt(message.split(':')[1]) of submitStar; none models NaN (either the
message has no second colon-delimited component, or that component has no
numeric prefix). -/
def parseTimestampJS (message : String) : Option Int :=
  match (jsSplit message ':')[1]? with
  | none => none
  | some t => parseIntJS t

/-- The freshness test of submitStar: currentTime - timeStamp <= 5 * 60, where
a NaN timestamp makes the comparison false (so the expired branch is taken). -/
def freshnessOk (ts : Option Int) (now : Nat) : Bool :=
  match ts with
  | none => false
  | some ts => decide ((now : Int) - ts ≤ 300)

/-- How the promise returned by submitStar settles: it resolves with the block
_addBlock produced, resolves with the Invalid block sentinel string, or rejects
with an Error carrying the given message. -/
inductive SubmitResult
  | resolved (b : Block)
  | resolvedInvalid
  | rejected (msg : String)
  deriving DecidableEq

/-- submitStar(address, message, signature, star).  The external
signature-verification primitive is a parameter; Except.error models a raised
format error.  Faithful to the source: the verification result is bound to an
unused local; when verification raises, reject(...) settles the promise but
execution continues, so the block is still built and passed to _addBlock (the
later resolve is then a no-op on the settled promise, but the state change
persists); when verification returns — whether true or false — the claim is
appended unconditionally. -/
def submitStar (verify : String → String → String → Except Unit Bool)
    (st : BlockchainState) (address message signature star : String) (now : Nat) :
    SubmitResult × BlockchainState :=
  if freshnessOk (parseTimestampJS message) now then
    let body := Body.starClaim address message signature star
    match verify message address signature with
    | Except.error _ =>
        let r := addBlock st body now
        (SubmitResult.rejected ("Validation Error"), r.2)
    | Except.ok _ =>
        let r := addBlock st body now
        (match r.1 with
          | AddResult.block b => SubmitResult.resolved b
          | AddResult.invalidBlock => SubmitResult.resolvedInvalid, r.2)
  else
    (SubmitResult.rejected ("Time expired (5 min)"), st)

/-- True exactly when the submitStar promise resolved with a Block. -/
def isResolved : SubmitResult → Bool
  | SubmitResult.resolved _ => true
  | _ => false

/-- True exactly when _addBlock resolved with a Block (a success value). -/
def isBlockResult : AddResult → Bool
  | AddResult.block _ => true
  | AddResult.invalidBlock => false

/-- What getBlockByHash resolves with: the filter array (the truthy branch) or
null (the else branch). -/
inductive JsFindResult
  | found (blocks : List Block)
  | nullResult
  deriving DecidableEq

/-- JavaScript truthiness of an array object: every array, the empty one
included, is truthy. -/
def jsTruthyArray (_ : List Block) : Bool := true

/-- getBlockByHash: filter the chain by strict hash equality and test the
resulting array for truthiness; an array is always truthy, so the null branch
is dead and the method resolves with the (possibly empty) filter array. -/
def getBlockByHash (st : BlockchainState) (h : String) : JsFindResult :=
  let bs := st.chain.filter fun b => decide (b.hash = some h)
  if jsTruthyArray bs then JsFindResult.found bs else JsFindResult.nullResult

/-- The scan getStarsByWalletAddress performs over the chain array: decode each
body (modelled from the spec: getBData of the missing block.js returns the
decoded body) and push the star of every star claim whose walletAddress equals
the queried address.  The genesis body has no walletAddress field, and
undefined == address is false for every string address, so the genesis is
skipped. -/
def starsScan (address : String) : List Block → List String
  | [] => []
  | b :: rest =>
      match b.body with
      | Body.starClaim w _ _ s =>
          if w = address then s :: starsScan address rest else starsScan address rest
      | Body.data _ => starsScan address rest

/-- getStarsByWalletAddress(address); all pushes land before a caller awaiting
the returned promise observes the array (each callback suspends exactly once,
on await block.getBData()). -/
def getStarsByWalletAddress (st : BlockchainState) (address : String) : List String :=
  starsScan address st.chain

/-- The specification-side selector for the star query: the star payload of a
star claim held by the queried address, nothing for any other body. -/
def starOf (address : String) (b : Block) : Option String :=
  match b.body with
  | Body.starClaim w _ _ s => if w = address then some s else none
  | Body.data _ => none

/-- The hash of the last block of the list, or the supplied value when the list
is empty. -/
def chainTipHash : Option String → List Block → Option String
  | p, [] => p
  | _, b :: rest => chainTipHash b.hash rest

/-- The per-block well-formedness check: expected height, expected link to the
predecessor, and a self-consistent stored digest. -/
def blockCheck (i : Int) (p : Option String) (b : Block) : Bool :=
  decide (b.height = i) && decide (b.previousBlockHash = p) && blockValidate b

/-- Chain well-formedness from a given height and predecessor hash: heights are
contiguous, every block links to its predecessor, every digest checks out. -/
def wfFromB : Int → Option String → List Block → Bool
  | _, _, [] => true
  | i, p, b :: rest => blockCheck i p b && wfFromB (i + 1) b.hash rest

/-- Well-formedness of a whole Blockchain state: non-empty chain, contiguous
heights from 0 with a null genesis link and valid digests, and a height field
equal to the chain length minus one. -/
def wfState (st : BlockchainState) : Bool :=
  decide (st.chain ≠ []) && wfFromB 0 none st.chain &&
    decide (st.height = (st.chain.length : Int) - 1)

/-- The block that _addBlock stages from a well-formed state: height one past
the current height, linked to the tip, hashed over its own JSON with the hash
field still null. -/
def committedBlock (st : BlockchainState) (body : Body) (now : Nat) : Block :=
  let b1 : Block := { hash := none, height := st.height + 1, body := body, time := now,
                      previousBlockHash := chainTipHash none st.chain }
  { b1 with hash := some (digestModel (serializeBlock b1)) }

/-- Fold a list of append requests (body and append time) through _addBlock. -/
def appendAll (st : BlockchainState) : List (Body × Nat) → BlockchainState
  | [] => st
  | p :: rest => appendAll (addBlock st p.1 p.2).2 rest

/-- The state reached from a fresh Blockchain (genesis created at t0) after the
given sequence of appends. -/
def stateAfter (t0 : Nat) (ops : List (Body × Nat)) : BlockchainState :=
  appendAll (newBlockchain t0) ops

/-- One state-mutating operation of the Blockchain class: an _addBlock call or
a submitStar call (with an arbitrary external verification primitive).  The
read queries are pure and leave the state untouched. -/
inductive Step : BlockchainState → BlockchainState → Prop
  | add (st : BlockchainState) (body : Body) (now : Nat) :
      Step st (addBlock st body now).2
  | submit (st : BlockchainState) (verify : String → String → String → Except Unit Bool)
      (address message signature star : String) (now : Nat) :
      Step st (submitStar verify st address message signature star now).2

/-- A state is reachable when some sequence of operations of the class produces
it from a freshly constructed Blockchain. -/
def Reachable (st : BlockchainState) : Prop :=
  ∃ t0 : Nat, Relation.ReflTransGen Step (newBlockchain t0) st

/-- Chain health from a given predecessor hash, following the claim's two
checks: every digest an actual recomputation match, every non-genesis link
equal to the predecessor's hash. -/
def healthyFrom : Option String → List Block → Bool
  | _, [] => true
  | p, b :: rest => blockValidate b && decide (b.previousBlockHash = p) && healthyFrom b.hash rest

/-- Comparison definition for the validator claim, following the claim's words:
a chain is healthy when every block's recomputed digest matches its stored hash
and every block after the first links to its predecessor's hash.  The first
block's previousBlockHash is not constrained (the claim's checks only cover
heights above zero). -/
def chainHealthy : List Block → Bool
  | [] => true
  | b :: rest => blockValidate b && healthyFrom b.hash rest

/-- A state whose single committed block was tampered with outside the store's
API: the genesis body was replaced after commit, so its stored digest no longer
matches its content. -/
def tamperedGenesisState : BlockchainState :=
  { chain := [{ (newBlockchain 0).chain.headI with body := Body.data ("tampered") }],
    height := 0 }

/-- A well-formed two-block chain: genesis plus one appended block. -/
def goodTwoChain : List Block :=
  (stateAfter 0 [(Body.data ("b1"), 1)]).chain

/-- The second block of goodTwoChain with its previousBlockHash replaced by a
hash matching no block, and its stored digest recomputed to stay
self-consistent: a pure linkage break with intact per-block digests. -/
def relinkedBlock : Block :=
  let b1 : Block := { (goodTwoChain.getLastD default) with
                        previousBlockHash := some ("0000"), hash := none }
  { b1 with hash := some (digestModel (serializeBlock b1)) }

/-- A two-block chain whose second block has valid digests but a
previousBlockHash that differs from the first block's hash. -/
def brokenLinkChain : List Block :=
  [goodTwoChain.headI, relinkedBlock]

theorem validateObserved_eq_nil (c : List Block) :
    validateChainObserved c = [] ↔ ∀ b ∈ c, blockValidate b = true := by
  unfold validateChainObserved
  rw [List.filterMap_eq_nil_iff]
  constructor
  · intro h b hb
    have := h b hb
    by_cases hv : blockValidate b
    · exact hv
    · simp [hv] at this
  · intro h b hb
    simp [h b hb]

theorem chainTipHash_last (xs : List Block) :
    ∀ p : Option String, chainTipHash p xs = match xs.getLast? with
      | some b => b.hash
      | none => p := by
  induction xs with
  | nil => intro p; rfl
  | cons x rest ih =>
      intro p
      rw [chainTipHash, ih x.hash]
      cases h : rest.getLast? with
      | some b => simp [List.getLast?_cons, h]
      | none =>
          have : rest = [] := List.getLast?_eq_none_iff.mp h
          subst this
          simp

theorem wfFromB_all_valid (xs : List Block) :
    ∀ (i : Int) (p : Option String), wfFromB i p xs = true →
      ∀ b ∈ xs, blockValidate b = true := by
  induction xs with
  | nil => intro i p _ b hb; cases hb
  | cons x rest ih =>
      intro i p h b hb
      rw [wfFromB, Bool.and_eq_true] at h
      rcases List.mem_cons.mp hb with rfl | hb
      · have := h.1
        rw [blockCheck, Bool.and_eq_true, Bool.and_eq_true] at this
        exact this.2
      · exact ih (i + 1) x.hash h.2 b hb

theorem wfFromB_append (xs : List Block) :
    ∀ (i : Int) (p : Option String) (b : Block),
      wfFromB i p (xs ++ [b])
        = (wfFromB i p xs && blockCheck (i + xs.length) (chainTipHash p xs) b) := by
  induction xs with
  | nil => intro i p b; simp [wfFromB, chainTipHash, blockCheck]
  | cons x rest ih =>
      intro i p b
      rw [List.cons_append, wfFromB, ih (i + 1) x.hash b, wfFromB]
      have hcast : (i + 1) + (rest.length : Int) = i + ((rest.length + 1 : Nat) : Int) := by
        push_cast; ring
      rw [hcast]
      simp [chainTipHash, Bool.and_assoc, List.length_cons]

theorem wfFromB_filter_last (xs : List Block) :
    ∀ (i j : Int) (p : Option String), wfFromB i p xs = true →
      j = i + (xs.length : Int) - 1 →
      (xs.filter fun b => decide (b.height = j)).head? = xs.getLast? := by
  induction xs with
  | nil => intro i j p _ _; rfl
  | cons x rest ih =>
      intro i j p h hj
      rw [wfFromB, Bool.and_eq_true] at h
      have hx : x.height = i := by
        have := h.1
        rw [blockCheck, Bool.and_eq_true, Bool.and_eq_true] at this
        exact of_decide_eq_true this.1.1
      cases rest with
      | nil =>
          have : j = i := by
            simp only [List.length_cons, List.length_nil] at hj
            push_cast at hj
            omega
          subst this
          simp [List.filter, hx]
      | cons r rs =>
          have hxne : ¬ (x.height = j) := by
            simp only [List.length_cons] at hj
            push_cast at hj
            omega
          have hj' : j = (i + 1) + ((r :: rs).length : Int) - 1 := by
            simp only [List.length_cons] at hj ⊢
            push_cast at hj ⊢
            omega
          rw [List.filter_cons_of_neg (by simpa using hxne),
            List.getLast?_cons_cons]
          exact ih (i + 1) j x.hash h.2 hj'

theorem blockValidate_committed (st : BlockchainState) (body : Body) (now : Nat) :
    blockValidate (committedBlock st body now) = true := by
  simp [blockValidate, committedBlock]

theorem getBlockByHeight_wf (st : BlockchainState) (h : wfState st = true) :
    getBlockByHeight st st.height = st.chain.getLast? := by
  rw [wfState, Bool.and_eq_true, Bool.and_eq_true] at h
  obtain ⟨⟨hne, hwf⟩, hh⟩ := h
  have hh' := of_decide_eq_true hh
  unfold getBlockByHeight
  exact wfFromB_filter_last st.chain 0 st.height none hwf (by omega)

theorem validateObserved_append_committed (st : BlockchainState) (body : Body) (now : Nat)
    (hwf : wfFromB 0 none st.chain = true) :
    validateChainObserved (st.chain ++ [committedBlock st body now]) = [] := by
  rw [validateObserved_eq_nil]
  intro b hb
  rcases List.mem_append.mp hb with hb | hb
  · exact wfFromB_all_valid st.chain 0 none hwf b hb
  · rcases List.mem_singleton.mp hb with rfl
    exact blockValidate_committed st body now

theorem addBlock_of_wf (st : BlockchainState) (body : Body) (now : Nat)
    (h : wfState st = true) :
    addBlock st body now
      = (AddResult.block (committedBlock st body now),
         { chain := st.chain ++ [committedBlock st body now], height := st.height + 1 }) := by
  have h' := h
  rw [wfState, Bool.and_eq_true, Bool.and_eq_true] at h'
  obtain ⟨⟨hne, hwf⟩, hh⟩ := h'
  have hne' := of_decide_eq_true hne
  have hh' := of_decide_eq_true hh
  have hlen : 0 < st.chain.length := List.length_pos.mpr hne'
  have hpos : st.height + 1 > 0 := by omega
  have hget : getBlockByHeight st st.height = some (st.chain.getLast hne') := by
    rw [getBlockByHeight_wf st h, List.getLast?_eq_getLast st.chain hne']
  have htip : chainTipHash none st.chain = (st.chain.getLast hne').hash := by
    rw [chainTipHash_last, List.getLast?_eq_getLast st.chain hne']
  rw [addBlock]
  simp only [hpos, if_true, hget]
  rw [← htip]
  simp only [stageAndValidate]
  have hob : validateChainObserved (st.chain ++ [committedBlock st body now]) = [] :=
    validateObserved_append_committed st body now hwf
  simp only [committedBlock] at hob
  simp only [hob, List.length_nil, gt_iff_lt, lt_self_iff_false, if_false]
  simp only [committedBlock]

theorem wf_addBlock (st : BlockchainState) (body : Body) (now : Nat)
    (h : wfState st = true) : wfState (addBlock st body now).2 = true := by
  rw [addBlock_of_wf st body now h]
  have h' := h
  rw [wfState, Bool.and_eq_true, Bool.and_eq_true] at h'
  obtain ⟨⟨hne, hwf⟩, hh⟩ := h'
  have hh' := of_decide_eq_true hh
  rw [wfState, Bool.and_eq_true, Bool.and_eq_true]
  refine ⟨⟨?_, ?_⟩, ?_⟩
  · exact decide_eq_true (by simp)
  · rw [wfFromB_append, Bool.and_eq_true]
    refine ⟨hwf, ?_⟩
    rw [blockCheck, Bool.and_eq_true, Bool.and_eq_true]
    refine ⟨⟨?_, ?_⟩, blockValidate_committed st body now⟩
    · refine decide_eq_true ?_
      simp only [committedBlock]
      omega
    · exact decide_eq_true (by simp [committedBlock])
  · refine decide_eq_true ?_
    simp only [List.length_append, List.length_singleton]
    push_cast
    omega

theorem wf_newBlockchain (t : Nat) : wfState (newBlockchain t) = true := by
  norm_num [newBlockchain, addBlock, emptyState, stageAndValidate,
    validateChainObserved, blockValidate, wfState, wfFromB, blockCheck]

theorem wf_submitStar (verify : String → String → String → Except Unit Bool)
    (st : BlockchainState) (address message signature star : String) (now : Nat)
    (h : wfState st = true) :
    wfState (submitStar verify st address message signature star now).2 = true := by
  rw [submitStar]
  cases hf : freshnessOk (parseTimestampJS message) now with
  | false => simpa [hf] using h
  | true =>
      simp only [hf, if_true]
      cases hv : verify message address signature with
      | error e => simpa using wf_addBlock st _ now h
      | ok b => simpa using wf_addBlock st _ now h

theorem reachable_wf (st : BlockchainState) (h : Reachable st) : wfState st = true := by
  obtain ⟨t0, hsteps⟩ := h
  induction hsteps with
  | refl => exact wf_newBlockchain t0
  | tail hprev hstep ih =>
      cases hstep with
      | add body now => exact wf_addBlock _ body now ih
      | submit verify a m s star now => exact wf_submitStar verify _ a m s star now ih

theorem wfFromB_get_height (xs : List Block) :
    ∀ (i : Int) (p : Option String), wfFromB i p xs = true →
      ∀ (j : Nat) (hj : j < xs.length), xs[j].height = i + j := by
  induction xs with
  | nil => intro i p _ j hj; simp at hj
  | cons x rest ih =>
      intro i p h j hj
      rw [wfFromB, Bool.and_eq_true] at h
      cases j with
      | zero =>
          have hx := h.1
          rw [blockCheck, Bool.and_eq_true, Bool.and_eq_true] at hx
          simpa using of_decide_eq_true hx.1.1
      | succ k =>
          have hk : k < rest.length := Nat.lt_of_succ_lt_succ (by simpa using hj)
          have hrec := ih (i + 1) x.hash h.2 k hk
          rw [List.getElem_cons_succ, hrec]
          push_cast
          ring

theorem wfFromB_prev_zero (xs : List Block) (i : Int) (p : Option String)
    (h : wfFromB i p xs = true) (h0 : 0 < xs.length) :
    xs[0].previousBlockHash = p := by
  cases xs with
  | nil => simp at h0
  | cons x rest =>
      rw [wfFromB, Bool.and_eq_true] at h
      have hx := h.1
      rw [blockCheck, Bool.and_eq_true, Bool.and_eq_true] at hx
      simpa using of_decide_eq_true hx.1.2

theorem wfFromB_prev_succ (xs : List Block) :
    ∀ (i : Int) (p : Option String), wfFromB i p xs = true →
      ∀ (j : Nat) (hj : j + 1 < xs.length),
        xs[j + 1].previousBlockHash = xs[j].hash := by
  induction xs with
  | nil => intro i p _ j hj; simp at hj
  | cons x rest ih =>
      intro i p h j hj
      rw [wfFromB, Bool.and_eq_true] at h
      cases j with
      | zero =>
          have h0 : 0 < rest.length := by
            have := Nat.lt_of_succ_lt_succ hj
            simpa using this
          have := wfFromB_prev_zero rest (i + 1) x.hash h.2 h0
          simpa using this
      | succ k =>
          have hk : k + 1 < rest.length := by
            have := Nat.lt_of_succ_lt_succ hj
            simpa using this
          have := ih (i + 1) x.hash h.2 k hk
          simpa using this

theorem wf_appendAll (ops : List (Body × Nat)) :
    ∀ st : BlockchainState, wfState st = true → wfState (appendAll st ops) = true := by
  induction ops with
  | nil => intro st h; exact h
  | cons p rest ih =>
      intro st h
      rw [appendAll]
      exact ih _ (wf_addBlock st p.1 p.2 h)

theorem length_appendAll (ops : List (Body × Nat)) :
    ∀ st : BlockchainState, wfState st = true →
      (appendAll st ops).chain.length = st.chain.length + ops.length := by
  induction ops with
  | nil => intro st h; simp [appendAll]
  | cons p rest ih =>
      intro st h
      rw [appendAll, ih _ (wf_addBlock st p.1 p.2 h), addBlock_of_wf st p.1 p.2 h]
      simp [List.length_append]
      omega

theorem starsScan_eq_filterMap (address : String) (xs : List Block) :
    starsScan address xs = xs.filterMap (starOf address) := by
  induction xs with
  | nil => rfl
  | cons b rest ih =>
      cases hb : b.body with
      | data d => simp [starsScan, starOf, hb, ih]
      | starClaim w m s str =>
          by_cases hw : w = address
          · simp [starsScan, starOf, hb, hw, ih]
          · simp [starsScan, starOf, hb, hw, ih]

/-- C1: the claim says that whenever the external signature-verification
primitive returns false or raises, submitStar fails with InvalidSignature, no
block is appended and the height is unchanged.  The code computes the
verification result into an unused local and never gates on it.  This theorem
evaluates the code at a fresh, well-formed message: when verification returns
false the call resolves successfully with the appended block and the height
grows by one; when verification raises, the promise is rejected (with the
Validation Error message) but the block is still appended and the height still
grows by one. -/
theorem C1_ignored_verification :
    isResolved (submitStar (fun _ _ _ => Except.ok false) (newBlockchain 0)
      ("a") ("a:5:starRegistry") ("sig") ("star") 10).1 = true ∧
    (submitStar (fun _ _ _ => Except.ok false) (newBlockchain 0)
      ("a") ("a:5:starRegistry") ("sig") ("star") 10).2.height
        = (newBlockchain 0).height + 1 ∧
    (submitStar (fun _ _ _ => Except.error ()) (newBlockchain 0)
      ("a") ("a:5:starRegistry") ("sig") ("star") 10).1
        = SubmitResult.rejected ("Validation Error") ∧
    (submitStar (fun _ _ _ => Except.error ()) (newBlockchain 0)
      ("a") ("a:5:starRegistry") ("sig") ("star") 10).2.height
        = (newBlockchain 0).height + 1 := by
  decide

/-- C2: the claim says a failed post-append validation must roll the staged
block back and hand the caller a ChainIntegrityViolation error, never the block
as a success value.  Evaluating _addBlock on a state whose only block was
tampered with after commit (so the observed validation report is non-empty):
the rollback does restore the prior state unchanged, but the promise still
resolves with the staged block as a success value. -/
theorem C2_rollback_returns_block :
    validateChainObserved (tamperedGenesisState.chain
        ++ [committedBlock tamperedGenesisState (Body.data ("x")) 5]) ≠ [] ∧
    (addBlock tamperedGenesisState (Body.data ("x")) 5).2 = tamperedGenesisState ∧
    isBlockResult (addBlock tamperedGenesisState (Body.data ("x")) 5).1 = true := by
  decide

/-- C3: the claim says validateChain reports a BrokenLinkage error at height h
for each h whose previousHash differs from the predecessor's hash, and that the
report is empty iff the chain is healthy.  Evaluating the code: on a two-block
chain whose second block has self-consistent digests but a previousBlockHash
matching no block (chainHealthy is false), the observed report is empty; and
on a perfectly healthy two-block chain the eventual errorLog content even
gains a spurious linkage entry at height 1, because the comparison reads .hash
off a promise and compares the previousBlockHash against undefined. -/
theorem C3_linkage_unreported :
    chainHealthy brokenLinkChain = false ∧
    validateChainObserved brokenLinkChain = [] ∧
    chainHealthy goodTwoChain = true ∧
    validateChainEventual goodTwoChain = [ChainError.invalidPrevHash 1] := by
  decide

theorem newBlockchain_chain_length (t : Nat) : (newBlockchain t).chain.length = 1 := by
  norm_num [newBlockchain, addBlock, emptyState, stageAndValidate,
    validateChainObserved, blockValidate]

/-- C4: after every successful append (the genesis included), the chain has
height 0 and a null previous link at index 0, height i and a link to the
predecessor's hash at every index i above 0, and the reported height equals the
number of appends minus one (the chain length is the number of appends, and the
height field is the length minus one). -/
theorem C4_invariants (t0 : Nat) (ops : List (Body × Nat)) :
    (stateAfter t0 ops).height = ((stateAfter t0 ops).chain.length : Int) - 1 ∧
    (stateAfter t0 ops).chain.length = ops.length + 1 ∧
    ∀ (j : Nat) (hj : j < (stateAfter t0 ops).chain.length),
      ((stateAfter t0 ops).chain[j].height = (j : Int)) ∧
      (j = 0 → (stateAfter t0 ops).chain[j].previousBlockHash = none) ∧
      ∀ (hj' : j - 1 < (stateAfter t0 ops).chain.length), 0 < j →
        (stateAfter t0 ops).chain[j].previousBlockHash
          = (stateAfter t0 ops).chain[j - 1].hash := by
  have hwf : wfState (stateAfter t0 ops) = true :=
    wf_appendAll ops _ (wf_newBlockchain t0)
  have h' := hwf
  rw [wfState, Bool.and_eq_true, Bool.and_eq_true] at h'
  obtain ⟨⟨hne, hfrom⟩, hh⟩ := h'
  refine ⟨of_decide_eq_true hh, ?_, ?_⟩
  · rw [stateAfter, length_appendAll ops _ (wf_newBlockchain t0),
      newBlockchain_chain_length t0]
    omega
  · intro j hj
    refine ⟨?_, ?_, ?_⟩
    · have := wfFromB_get_height _ 0 none hfrom j hj
      simpa using this
    · intro h0
      subst h0
      exact wfFromB_prev_zero _ 0 none hfrom (by omega)
    · intro hj' hpos
      obtain ⟨k, rfl⟩ : ∃ k, j = k + 1 := ⟨j - 1, by omega⟩
      simpa using wfFromB_prev_succ _ 0 none hfrom k (by omega)

theorem C4_invariants_witness :
    ((stateAfter 1 [(Body.data ("x"), 2)]).chain.get ⟨1, by decide⟩).height = (1 : Int) ∧
    ((stateAfter 1 [(Body.data ("x"), 2)]).chain.get ⟨1, by decide⟩).previousBlockHash
      = ((stateAfter 1 [(Body.data ("x"), 2)]).chain.get ⟨0, by decide⟩).hash := by
  have h := C4_invariants 1 [(Body.data ("x"), 2)]
  have h1 := (h.2.2 1 (by decide)).1
  have h2 := (h.2.2 1 (by decide)).2.2 (by decide) (by decide)
  constructor
  · simpa using h1
  · simpa using h2

/-- C5 counterexample: the claim says every committed block's stored hash is
the digest of its canonical content with the hash field excluded at schema
level.  For the committed genesis block the stored hash is the digest of the
block's JSON with the hash field present and null (the digest input contains
the hash field), and it differs from the digest of the serialization that
excludes the hash field at schema level. -/
theorem C5_hash_not_schema_excluded :
    ((newBlockchain 7).chain.headI).hash
        = some (digestModel (serializeBlock
            { (newBlockchain 7).chain.headI with hash := none })) ∧
    ((newBlockchain 7).chain.headI).hash
        ≠ some (digestModel (serializeBlockExcludingHash
            ((newBlockchain 7).chain.headI))) := by
  decide

/-- C5 amended: for every committed block of a well-formed state, the stored
hash equals the digest of the block's full JSON serialization with the hash
field included and set to null — the value it happens to hold when line 89
computes the digest — so the exclusion of the hash's final value is incidental
to assignment order, not a schema-level exclusion. -/
theorem C5_hash_incidental (st : BlockchainState) (h : wfState st = true)
    (b : Block) (hb : b ∈ st.chain) :
    b.hash = some (digestModel (serializeBlock { b with hash := none })) := by
  rw [wfState, Bool.and_eq_true, Bool.and_eq_true] at h
  have := wfFromB_all_valid st.chain 0 none h.1.2 b hb
  rw [blockValidate] at this
  exact of_decide_eq_true this

theorem C5_hash_incidental_witness :
    wfState (newBlockchain 3) = true ∧
    ((newBlockchain 3).chain.headI).hash
      = some (digestModel (serializeBlock
          { (newBlockchain 3).chain.headI with hash := none })) :=
  ⟨by decide, C5_hash_incidental (newBlockchain 3) (by decide)
    ((newBlockchain 3).chain.headI) (by decide)⟩

/-- C6: whenever the timestamp embedded in the message parses and the elapsed
time exceeds 300 seconds, submitStar rejects with the time-expired error and
leaves the state (chain and height) unchanged, for every possible behavior of
the signature-verification primitive (which is therefore never consulted). -/
theorem C6_expired (verify : String → String → String → Except Unit Bool)
    (st : BlockchainState) (address message signature star : String)
    (now : Nat) (ts : Int) (hts : parseTimestampJS message = some ts)
    (hexp : (now : Int) - ts > 300) :
    submitStar verify st address message signature star now
      = (SubmitResult.rejected ("Time expired (5 min)"), st) := by
  rw [submitStar, hts]
  have : freshnessOk (some ts) now = false := by
    rw [freshnessOk]
    simpa using by omega
  rw [this]
  simp

theorem C6_expired_witness :
    parseTimestampJS ("a:1:starRegistry") = some 1 ∧
    ((1000 : Nat) : Int) - 1 > 300 ∧
    submitStar (fun _ _ _ => Except.ok true) (newBlockchain 0)
        ("a") ("a:1:starRegistry") ("sig") ("star") 1000
      = (SubmitResult.rejected ("Time expired (5 min)"), newBlockchain 0) :=
  ⟨by decide, by decide,
    C6_expired (fun _ _ _ => Except.ok true) (newBlockchain 0)
      ("a") ("a:1:starRegistry") ("sig") ("star") 1000 1 (by decide) (by decide)⟩

/-- C7 counterexample: the claim says a message that is not of the
colon-delimited address:timestamp:tag form fails with MalformedMessage and not
with any other error kind.  On the message hello (no colons, so the parsed
timestamp is NaN) the code rejects with the time-expired error — the very same
error as a well-formed but stale message — because NaN fails the freshness
comparison; there is no malformed-message error kind anywhere in the code. -/
theorem C7_malformed_counterexample :
    submitStar (fun _ _ _ => Except.ok true) (newBlockchain 0)
        ("a") ("hello") ("sig") ("star") 10
      = (SubmitResult.rejected ("Time expired (5 min)"), newBlockchain 0) ∧
    (submitStar (fun _ _ _ => Except.ok true) (newBlockchain 0)
        ("a") ("hello") ("sig") ("star") 10).1
      = (submitStar (fun _ _ _ => Except.ok true) (newBlockchain 0)
        ("a") ("a:1:starRegistry") ("sig") ("star") 100000).1 := by
  decide

/-- C7 amended: a message whose timestamp component does not parse to a number
(malformed structure or non-numeric timestamp, NaN in the source) is rejected
and the chain is unchanged, but the rejection carries the time-expired error —
the NaN freshness comparison fails — not a distinct MalformedMessage kind. -/
theorem C7_malformed_amended (verify : String → String → String → Except Unit Bool)
    (st : BlockchainState) (address message signature star : String)
    (now : Nat) (h : parseTimestampJS message = none) :
    submitStar verify st address message signature star now
      = (SubmitResult.rejected ("Time expired (5 min)"), st) := by
  rw [submitStar, h]
  simp [freshnessOk]

theorem C7_malformed_witness :
    parseTimestampJS ("hello") = none ∧
    submitStar (fun _ _ _ => Except.error ()) (newBlockchain 5)
        ("a") ("hello") ("sig") ("star") 10
      = (SubmitResult.rejected ("Time expired (5 min)"), newBlockchain 5) :=
  ⟨by decide,
    C7_malformed_amended (fun _ _ _ => Except.error ()) (newBlockchain 5)
      ("a") ("hello") ("sig") ("star") 10 (by decide)⟩

/-- C8 counterexample: the claim says a miss returns an explicit NotFound
result.  The code tests the filter array for truthiness, and an array is
always truthy, so a hash matching no block resolves with the empty array — a
success-shaped value, not the null (not-found) branch, which is dead code. -/
theorem C8_miss_counterexample :
    getBlockByHash (newBlockchain 0) ("deadbeef") = JsFindResult.found [] ∧
    JsFindResult.found ([] : List Block) ≠ JsFindResult.nullResult := by
  decide

/-- C8 amended: getBlockByHash always resolves with the array of all blocks
whose hash strictly equals the query (in chain order): a miss yields the empty
array rather than an explicit not-found result, and a hit yields a
one-or-more-element array containing the matching blocks rather than the bare
block; the null branch is unreachable. -/
theorem C8_filter_amended (st : BlockchainState) (h : String) :
    getBlockByHash st h
      = JsFindResult.found (st.chain.filter fun b => decide (b.hash = some h)) ∧
    ∀ b : Block,
      b ∈ (st.chain.filter fun b => decide (b.hash = some h))
        ↔ (b ∈ st.chain ∧ b.hash = some h) := by
  constructor
  · rw [getBlockByHash]
    rfl
  · intro b
    rw [List.mem_filter]
    simp

/-- C9: getStarsByWalletAddress returns, in chain (insertion) order, exactly
the star payloads of the blocks whose decoded body is a star claim with the
queried wallet address — the genesis body has no walletAddress field and is
never selected — and after a submitStar for that address that resolves with a
Block from a well-formed state, the returned sequence includes that claim's
star. -/
theorem C9_stars (st : BlockchainState) (address : String) :
    getStarsByWalletAddress st address = st.chain.filterMap (starOf address) ∧
    ∀ (verify : String → String → String → Except Unit Bool)
      (message signature star : String) (now : Nat),
      wfState st = true →
      isResolved (submitStar verify st address message signature star now).1 = true →
      star ∈ getStarsByWalletAddress
        (submitStar verify st address message signature star now).2 address := by
  constructor
  · exact starsScan_eq_filterMap address st.chain
  · intro verify message signature star now hwf hres
    rw [submitStar] at hres ⊢
    cases hf : freshnessOk (parseTimestampJS message) now with
    | false =>
        rw [hf] at hres
        simp [isResolved] at hres
    | true =>
        rw [hf] at hres
        rw [if_pos rfl] at hres ⊢
        cases hv : verify message address signature with
        | error e =>
            rw [hv] at hres
            simp [isResolved] at hres
        | ok b =>
            simp only [addBlock_of_wf st
              (Body.starClaim address message signature star) now hwf]
            rw [getStarsByWalletAddress, starsScan_eq_filterMap]
            simp only [List.filterMap_append]
            apply List.mem_append_right
            simp [committedBlock, starOf]

theorem C9_stars_witness :
    wfState (newBlockchain 40) = true ∧
    isResolved (submitStar (fun _ _ _ => Except.ok true) (newBlockchain 40)
        ("a") ("a:50:starRegistry") ("sig") ("mystar") 60).1 = true ∧
    ("mystar") ∈ getStarsByWalletAddress
      (submitStar (fun _ _ _ => Except.ok true) (newBlockchain 40)
        ("a") ("a:50:starRegistry") ("sig") ("mystar") 60).2 ("a") :=
  ⟨by decide, by decide,
    (C9_stars (newBlockchain 40) ("a")).2 (fun _ _ _ => Except.ok true)
      ("a:50:starRegistry") ("sig") ("mystar") 60 (by decide) (by decide)⟩

/-- C10: in every state a sequence of completed operations of the class can
produce (construction with genesis creation, _addBlock calls whether they
commit or roll back, submitStar calls on every path, and the read queries,
which are pure), the stored height field equals the chain length minus one. -/
theorem C10_height (st : BlockchainState) (h : Reachable st) :
    st.height = (st.chain.length : Int) - 1 := by
  have hwf := reachable_wf st h
  rw [wfState, Bool.and_eq_true, Bool.and_eq_true] at hwf
  exact of_decide_eq_true hwf.2

theorem C10_height_witness :
    (newBlockchain 0).height = ((newBlockchain 0).chain.length : Int) - 1 :=
  C10_height (newBlockchain 0) ⟨0, Relation.ReflTransGen.refl⟩
